import Mathlib

/-!
Verification of the save-data synchronization and session-isolation engine
(PiratedHollowKnight). The Go sources are shallowly embedded: directory trees
become finite path-to-content maps, fallible OS calls become environment flags,
goroutine/defer control flow becomes explicit state passing, and `time.Time`
values become natural numbers ordered by `<` (Go's `After` is strict `>`,
the zero `time.Time` is `0`).
-/

namespace HK

/-- A file path, as a list of components. -/
abbrev FsPath := List String

/-- A directory tree, flattened to a finite map from file paths to contents
(contents abstracted as `Nat`; the code only ever copies whole files). -/
abbrev FS := List (FsPath × Nat)

/-- Look up the content stored at path `p`. -/
def fsLookup (fs : FS) (p : FsPath) : Option Nat :=
  (fs.find? (fun e => e.1 = p)).map (·.2)

@[simp] theorem fsLookup_nil (p : FsPath) : fsLookup [] p = none := rfl

theorem fsLookup_cons (e : FsPath × Nat) (l : FS) (p : FsPath) :
    fsLookup (e :: l) p = if e.1 = p then some e.2 else fsLookup l p := by
  by_cases h : e.1 = p <;> simp [fsLookup, List.find?, h]

/-- Recursive overwrite-copy of a source tree into a destination tree, as
`util.CopyDir` does file by file: every source file is written (overwriting a
colliding destination file); destination-only files are left in place. -/
def mergeInto (src dst : FS) : FS :=
  dst.filter (fun e => (fsLookup src e.1).isNone) ++ src

@[simp] theorem mergeInto_nil (src : FS) : mergeInto src [] = src := rfl

/-- Files absent from the source are left exactly as the destination had them. -/
theorem fsLookup_mergeInto_of_src_none (src dst : FS) (p : FsPath)
    (h : fsLookup src p = none) :
    fsLookup (mergeInto src dst) p = fsLookup dst p := by
  induction dst with
  | nil => simp [mergeInto, h]
  | cons e dst ih =>
    simp only [mergeInto, List.filter_cons] at ih ⊢
    split
    · rw [List.cons_append, fsLookup_cons, fsLookup_cons]
      by_cases hk : e.1 = p
      · rw [if_pos hk, if_pos hk]
      · rw [if_neg hk, if_neg hk]
        exact ih
    · next hpred =>
        rw [fsLookup_cons]
        by_cases hk : e.1 = p
        · exact absurd (by rw [hk, h]; rfl) hpred
        · rw [if_neg hk]
          exact ih

/-- The two endpoint kinds (`config.SyncType`: `Local` and `Gdrive`). -/
inductive SyncType where
  | Local
  | Gdrive
deriving DecidableEq

/-- A configured save target (`config.SyncTarget`). Strings are embedded as
`List Char`; `Interval` is a signed duration (Go `time.Duration`). -/
structure SyncTarget where
  type : SyncType
  path : List Char
  remoteName : List Char
  interval : Int
  syncOnQuit : Option Bool
  original : List Char
deriving DecidableEq

/-- The rclone subcommand chosen by a call site. -/
inductive Verb where
  | copy
  | sync
deriving DecidableEq

/-- Modelled from the spec: the external Remote Transfer Tool's `copy`
subcommand (rclone is not part of this repository). Per §4.5, copy-only
semantics: source files are added or overwritten at the destination and
pre-existing destination-only files are not removed. -/
def rcloneCopy (src dst : FS) : FS := mergeInto src dst

/-- Modelled from the spec: the external Remote Transfer Tool's `sync`
subcommand (rclone is not part of this repository). Per the glossary, mirror
synchronization: the destination is made identical to the source, so
destination-only entries are deleted. -/
def rcloneSyncCmd (src _dst : FS) : FS := src

/-- The local-to-local branch of `backup.Sync` (and of `backup.CopyToMaster`,
whose `Local` case is identical): if the destination exists it is removed with
`os.RemoveAll`, then `util.CopyDir` copies the source tree over. The
destination is `Option FS` — `none` means the directory does not exist. -/
def syncLocalLocal (src : FS) (dst : Option FS) : FS :=
  let cleaned : Option FS :=
    match dst with
    | some _ => none
    | none => dst
  mergeInto src (cleaned.getD [])

/-- `backup.Sync` (sync.go): dispatch on the endpoint kinds. Both local: the
destructive local mirror (no rclone verb used). Otherwise: rclone `copy`.
Returns the rclone verb invoked (if any) and the resulting destination tree. -/
def SyncOp (srcType dstType : SyncType) (srcFS : FS) (dstFS : Option FS) :
    Option Verb × FS :=
  if srcType = SyncType.Local ∧ dstType = SyncType.Local then
    (none, syncLocalLocal srcFS dstFS)
  else
    (some Verb.copy, rcloneCopy srcFS (dstFS.getD []))

/-- Result of `filepath.WalkDir` over a local endpoint, abstracted: the
directory may be missing, the walk may hit an IO error (other than
not-exist), or it yields the modification times of the files found. -/
inductive DirQueryResult where
  | missing
  | ioError
  | files (ts : List Nat)
deriving DecidableEq

/-- `util.GetDirLastModTime`: most recent modification time of any file under
the directory. A missing directory is deliberately treated as the zero time
with no error (the code checks `os.IsNotExist`); any other walk error is
fatal (`none` here embeds the returned Go error). -/
def GetDirLastModTime : DirQueryResult → Option Nat
  | DirQueryResult.missing => some 0
  | DirQueryResult.ioError => none
  | DirQueryResult.files ts => some (ts.foldl max 0)

/-- The loop state of `launcher.findLatestSource`: `none` embeds
`foundAny = false` (the tracked `latestModTime` is ignored until the first
success, so the pair is collapsed into an `Option`). Each input entry pairs a
target with the result of its modification-time query (`none` = the query
returned an error and the target is skipped with a warning). -/
def findLoop (best : Option (SyncTarget × Nat)) :
    List (SyncTarget × Option Nat) → Option (SyncTarget × Nat)
  | [] => best
  | (_, none) :: rest => findLoop best rest
  | (t, some m) :: rest =>
    match best with
    | none => findLoop (some (t, m)) rest
    | some b => if b.2 < m then findLoop (some (t, m)) rest else findLoop best rest

/-- `launcher.findLatestSource`: scan the registry in order, keep the target
whose query strictly exceeds the best time seen so far; `none` embeds the
`could not find any valid/accessible save targets` error. -/
def findLatestSource (rs : List (SyncTarget × Option Nat)) : Option SyncTarget :=
  (findLoop none rs).map (·.1)

/-- The registry entries whose modification-time query succeeded, in order. -/
def successes (rs : List (SyncTarget × Option Nat)) : List (SyncTarget × Nat) :=
  rs.filterMap (fun p => p.2.map (fun m => (p.1, m)))

/-- First element of the list attaining the maximal second component
(specification-side selection function for the Freshness Resolver). -/
def firstMax : List (SyncTarget × Nat) → Option (SyncTarget × Nat)
  | [] => none
  | x :: xs =>
    match firstMax xs with
    | none => some x
    | some y => if x.2 < y.2 then some y else some x

theorem firstMax_eq_none_iff (xs : List (SyncTarget × Nat)) :
    firstMax xs = none ↔ xs = [] := by
  cases xs with
  | nil => simp [firstMax]
  | cons x xs =>
    have hsome : ∃ v, firstMax (x :: xs) = some v := by
      show ∃ v, (match firstMax xs with
                 | none => some x
                 | some y => if x.2 < y.2 then some y else some x) = some v
      rcases firstMax xs with _ | y
      · exact ⟨x, rfl⟩
      · by_cases hxy : x.2 < y.2
        · exact ⟨y, by show (if x.2 < y.2 then some y else some x) = some y
                       rw [if_pos hxy]⟩
        · exact ⟨x, by show (if x.2 < y.2 then some y else some x) = some x
                       rw [if_neg hxy]⟩
    obtain ⟨v, hv⟩ := hsome
    simp [hv]

theorem firstMax_cons_cons (b x : SyncTarget × Nat) (xs : List (SyncTarget × Nat)) :
    firstMax (b :: x :: xs)
      = if b.2 < x.2 then firstMax (x :: xs) else firstMax (b :: xs) := by
  rcases hz : firstMax xs with _ | z
  · have hxs : xs = [] := (firstMax_eq_none_iff xs).mp hz
    subst hxs
    have h1 : firstMax [x] = some x := rfl
    have h2 : firstMax [b] = some b := rfl
    have hL : firstMax [b, x] = if b.2 < x.2 then some x else some b := by
      show (match firstMax [x] with
            | none => some b
            | some y => if b.2 < y.2 then some y else some b) = _
      rw [h1]
    rw [hL, h1, h2]
  · have hfb : firstMax (b :: xs) = if b.2 < z.2 then some z else some b := by
      show (match firstMax xs with
            | none => some b
            | some y => if b.2 < y.2 then some y else some b) = _
      rw [hz]
    by_cases hxz : x.2 < z.2
    · have hfx : firstMax (x :: xs) = some z := by
        show (match firstMax xs with
              | none => some x
              | some y => if x.2 < y.2 then some y else some x) = _
        rw [hz]
        show (if x.2 < z.2 then some z else some x) = some z
        rw [if_pos hxz]
      have hL : firstMax (b :: x :: xs) = if b.2 < z.2 then some z else some b := by
        show (match firstMax (x :: xs) with
              | none => some b
              | some y => if b.2 < y.2 then some y else some b) = _
        rw [hfx]
      rw [hL, hfx, hfb]
      by_cases hbx : b.2 < x.2
      · rw [if_pos hbx, if_pos (show b.2 < z.2 by omega)]
      · rw [if_neg hbx]
    · have hfx : firstMax (x :: xs) = some x := by
        show (match firstMax xs with
              | none => some x
              | some y => if x.2 < y.2 then some y else some x) = _
        rw [hz]
        show (if x.2 < z.2 then some z else some x) = some x
        rw [if_neg hxz]
      have hL : firstMax (b :: x :: xs) = if b.2 < x.2 then some x else some b := by
        show (match firstMax (x :: xs) with
              | none => some b
              | some y => if b.2 < y.2 then some y else some b) = _
        rw [hfx]
      rw [hL, hfx, hfb]
      by_cases hbx : b.2 < x.2
      · rw [if_pos hbx, if_pos hbx]
      · rw [if_neg hbx, if_neg hbx, if_neg (show ¬b.2 < z.2 by omega)]

theorem findLoop_some_eq_firstMax (rs : List (SyncTarget × Option Nat)) :
    ∀ b, findLoop (some b) rs = firstMax (b :: successes rs) := by
  induction rs with
  | nil => intro b; simp [findLoop, successes, firstMax]
  | cons p rest ih =>
    intro b
    rcases p with ⟨t, _ | m⟩
    · simpa [findLoop, successes] using ih b
    · have hs : successes ((t, some m) :: rest) = (t, m) :: successes rest := by
        simp [successes]
      rw [hs, firstMax_cons_cons]
      show (if b.2 < m then findLoop (some (t, m)) rest else findLoop (some b) rest) = _
      by_cases hb : b.2 < m
      · rw [if_pos hb, if_pos hb, ih]
      · rw [if_neg hb, if_neg hb, ih]

theorem findLatestSource_eq_firstMax (rs : List (SyncTarget × Option Nat)) :
    findLatestSource rs = (firstMax (successes rs)).map (·.1) := by
  induction rs with
  | nil => rfl
  | cons p rest ih =>
    rcases p with ⟨t, _ | m⟩
    · simpa [findLatestSource, findLoop, successes] using ih
    · have hs : successes ((t, some m) :: rest) = (t, m) :: successes rest := by
        simp [successes]
      show (findLoop (some (t, m)) rest).map (·.1) = _
      rw [findLoop_some_eq_firstMax, hs]

theorem firstMax_spec (xs : List (SyncTarget × Nat)) :
    ∀ x, firstMax xs = some x →
      x ∈ xs ∧ (∀ y ∈ xs, y.2 ≤ x.2)
        ∧ xs.find? (fun y => decide (x.2 ≤ y.2)) = some x := by
  induction xs with
  | nil => intro x h; simp [firstMax] at h
  | cons a xs ih =>
    intro x h
    rcases ha : firstMax xs with _ | y
    · have hxs : xs = [] := (firstMax_eq_none_iff xs).mp ha
      subst hxs
      have hx : x = a := by
        have : firstMax [a] = some a := rfl
        rw [this] at h
        exact (Option.some_inj.mp h).symm
      subst hx
      refine ⟨List.mem_singleton.mpr rfl, ?_, ?_⟩
      · intro y hy
        rw [List.mem_singleton] at hy
        exact hy ▸ le_refl _
      · simp [List.find?]
    · obtain ⟨hmem, hmax, hfind⟩ := ih y ha
      have hh : (if a.2 < y.2 then some y else some a) = some x := by
        have : firstMax (a :: xs) =
            (match firstMax xs with
             | none => some a
             | some y => if a.2 < y.2 then some y else some a) := rfl
        rw [this, ha] at h
        exact h
      by_cases hay : a.2 < y.2
      · rw [if_pos hay] at hh
        have hx : x = y := (Option.some_inj.mp hh).symm
        subst hx
        refine ⟨List.mem_cons_of_mem _ hmem, ?_, ?_⟩
        · intro z hz
          rcases List.mem_cons.mp hz with hz | hz
          · subst hz; omega
          · exact hmax z hz
        · rw [List.find?]
          have hd : decide (x.2 ≤ a.2) = false := by
            simp only [decide_eq_false_iff_not]; omega
          rw [hd]
          exact hfind
      · rw [if_neg hay] at hh
        have hx : x = a := (Option.some_inj.mp hh).symm
        subst hx
        refine ⟨List.mem_cons_self _ _, ?_, ?_⟩
        · intro z hz
          rcases List.mem_cons.mp hz with hz | hz
          · subst hz; omega
          · have := hmax z hz; omega
        · rw [List.find?]
          have hd : decide (x.2 ≤ x.2) = true := by simp
          rw [hd]

theorem successes_filter_isSome (rs : List (SyncTarget × Option Nat)) :
    successes (rs.filter (fun p => p.2.isSome)) = successes rs := by
  induction rs with
  | nil => rfl
  | cons p rest ih =>
    rcases p with ⟨t, _ | m⟩ <;> simp [successes, List.filter_cons] at * <;>
      simpa [successes] using ih

/-- The selection loop of `runOnlineOnlyMode` (older launcher): track the
newest cloud target, starting from the zero time, replacing only on a
strictly greater time; failed queries are skipped with a warning. -/
def newestCloud (qs : List (SyncTarget × Option Nat)) : Option SyncTarget × Nat :=
  qs.foldl
    (fun acc p =>
      match p.2 with
      | none => acc
      | some m => if acc.2 < m then (some p.1, m) else acc)
    (none, 0)

/-- The pre-launch step of `runOnlineOnlyMode`: when some cloud target is
strictly newer than the local saves, the local save directory is populated
with `rclone sync` (a mirror) from that target; otherwise nothing runs.
Returns the rclone verb invoked (if any) and the resulting local tree. -/
def onlineOnlyPreLaunch (localTime : Nat) (qs : List (SyncTarget × Option Nat))
    (cloudFS localFS : FS) : Option Verb × FS :=
  match newestCloud qs with
  | (some _, m) =>
    if localTime < m then (some Verb.sync, rcloneSyncCmd cloudFS localFS)
    else (none, localFS)
  | (none, _) => (none, localFS)

/-- Environment for `launcher.acquireLock`. `lockFile` is the lock file on
disk: `none` = no file; `some none` = a file whose contents cannot be read or
parsed as a PID; `some (some p)` = a file naming PID `p`. `alive` abstracts
`os.FindProcess` + `Signal(0)` (true = the probe reports the process alive).
`removeOk`/`writeOk` are the outcomes of `os.Remove`/`os.WriteFile`. -/
structure LockEnv where
  lockFile : Option (Option Nat)
  alive : Nat → Bool
  myPid : Nat
  removeOk : Bool
  writeOk : Bool

/-- Outcome of lock acquisition. `contention` embeds the
`Another instance appears to be active` error; `ioError` embeds the other
(non-contention) failure returns. -/
inductive LockResult where
  | acquired
  | contention
  | ioError
deriving DecidableEq

/-- `launcher.acquireLock`: an existing lock naming a live process blocks;
an unreadable, unparseable, or dead-process lock is treated as stale and
reclaimed (removed, then rewritten with the current PID). Returns the result
together with the lock file state afterwards (same shape as `lockFile`). -/
def acquireLock (e : LockEnv) : LockResult × Option (Option Nat) :=
  match e.lockFile with
  | none =>
    if e.writeOk then (LockResult.acquired, some (some e.myPid))
    else (LockResult.ioError, none)
  | some inner =>
    match inner with
    | some pid =>
      if e.alive pid then (LockResult.contention, some (some pid))
      else if ¬e.removeOk then (LockResult.ioError, e.lockFile)
      else if e.writeOk then (LockResult.acquired, some (some e.myPid))
      else (LockResult.ioError, none)
    | none =>
      if ¬e.removeOk then (LockResult.ioError, e.lockFile)
      else if e.writeOk then (LockResult.acquired, some (some e.myPid))
      else (LockResult.ioError, none)

/-- The stage at which a `LaunchGame` run fails. -/
inductive Stage where
  | exeMissing
  | lockFailed
  | backupFailed
  | noSource
  | swapInFailed
  | startFailed
  | swapOutFailed
deriving DecidableEq

/-- Overall outcome of `LaunchGame`: fire-and-forget launch (no targets),
successful run, or a failure at some stage. -/
inductive LaunchOutcome where
  | detached
  | completed
  | failed (s : Stage)
deriving DecidableEq

/-- State touched by the transactional swap: the real save location's tree
(`none` = directory absent), the temporary backup directory's tree (`none` =
not created), and whether this process holds the instance lock. -/
structure SwapState where
  realData : Option FS
  backupDir : Option FS
  lockHeld : Bool
deriving DecidableEq

/-- Environment of one `LaunchGame` run (new transactional-swap launcher):
outcomes of each fallible OS/tool call, plus the data those calls produce.
`removeResidue` is what `os.RemoveAll` leaves behind when it fails partway
(Go's `RemoveAll` removes everything it can and returns the first error);
`copyResidue` is the partial tree a failed `util.CopyDir` had written.
`sourceQueries` are the per-target modification-time query results consumed
by `findLatestSource`; `swapInContent` is the chosen source's tree copied in
by step 4; `postGameContent` is the real save tree when the game exits
(normally or killed, per `waitKilled`). -/
structure LaunchEnv where
  exeExists : Bool
  syncTargets : List SyncTarget
  lockFile : Option (Option Nat)
  alive : Nat → Bool
  myPid : Nat
  lockRemoveOk : Bool
  lockWriteOk : Bool
  releaseRemoveOk : Bool
  mkTempOk : Bool
  backupCopyOk : Bool
  backupRemoveOk : Bool
  removeResidue : FS
  copyResidue : FS
  sourceQueries : List (SyncTarget × Option Nat)
  swapInOk : Bool
  swapInContent : FS
  swapInResidue : Option FS
  startOk : Bool
  waitKilled : Bool
  postGameContent : FS
  swapOutOk : Bool
  restoreRemoveOk : Bool
  restoreCopyOk : Bool

/-- The lock-related slice of a launch environment. -/
def lockEnvOf (e : LaunchEnv) : LockEnv :=
  { lockFile := e.lockFile
    alive := e.alive
    myPid := e.myPid
    removeOk := e.lockRemoveOk
    writeOk := e.lockWriteOk }

/-- `launcher.releaseLock`: remove the lock file; a failure is only logged. -/
def releaseLock (e : LaunchEnv) (s : SwapState) : SwapState :=
  if e.releaseRemoveOk then { s with lockHeld := false } else s

/-- `launcher.restoreRealSaves`: nothing to do if no backup was taken;
otherwise `os.RemoveAll` the real location (error ignored), `util.CopyDir`
the backup over it (failure only logged as CRITICAL), and finally remove the
backup directory (error ignored). -/
def restoreRealSaves (e : LaunchEnv) (backup : Option FS) (s : SwapState) :
    SwapState :=
  match backup with
  | none => s
  | some b =>
    let cleaned : Option FS := if e.restoreRemoveOk then none else some e.removeResidue
    let restored : Option FS :=
      if e.restoreCopyOk then some (mergeInto b (cleaned.getD [])) else cleaned
    { s with realData := restored, backupDir := none }

/-- The two deferred teardown calls of `LaunchGame`, in LIFO defer order:
restore the real saves, then release the lock. -/
def teardown (e : LaunchEnv) (backup : Option FS) (s : SwapState) : SwapState :=
  releaseLock e (restoreRealSaves e backup s)

/-- `launcher.backupRealSaves`: absent real saves mean nothing to back up
(empty backup path); otherwise create a temp dir, copy the real tree into
it, and remove the real tree. Returns `none` on error (the Go error return)
together with the mutated state; on success returns the backup handle. -/
def backupRealSaves (e : LaunchEnv) (s : SwapState) :
    Option (Option FS) × SwapState :=
  match s.realData with
  | none => (some none, s)
  | some d =>
    if ¬e.mkTempOk then (none, s)
    else if ¬e.backupCopyOk then (none, { s with backupDir := some e.copyResidue })
    else if ¬e.backupRemoveOk then
      (none, { s with realData := some e.removeResidue, backupDir := some d })
    else (some (some d), { s with realData := none, backupDir := some d })

/-- `launcher.LaunchGame` (transactional-swap launcher), with Go `defer`s
inlined at every return: the lock-release defer is registered as soon as the
lock is acquired; the restore defer only after a successful backup, so the
backup-failure return releases the lock but runs no restore. The background
sync goroutine never writes to the real save location and is elided from this
state. A context interrupt kills the game process; `cmd.Wait`'s error is
logged and ignored, so a killed game follows the same path as a normal exit
(`waitKilled` is recorded but does not branch, exactly as in the code). -/
def LaunchGame (e : LaunchEnv) (s0 : SwapState) : LaunchOutcome × SwapState :=
  if ¬e.exeExists then (LaunchOutcome.failed Stage.exeMissing, s0)
  else if e.syncTargets.isEmpty then (LaunchOutcome.detached, s0)
  else
    match (acquireLock (lockEnvOf e)).1 with
    | LockResult.acquired =>
      let s1 := { s0 with lockHeld := true }
      match backupRealSaves e s1 with
      | (none, s2) => (LaunchOutcome.failed Stage.backupFailed, releaseLock e s2)
      | (some backup, s2) =>
        match findLatestSource e.sourceQueries with
        | none => (LaunchOutcome.failed Stage.noSource, teardown e backup s2)
        | some _ =>
          if ¬e.swapInOk then
            (LaunchOutcome.failed Stage.swapInFailed,
              teardown e backup { s2 with realData := e.swapInResidue })
          else
            let s3 := { s2 with realData := some e.swapInContent }
            if ¬e.startOk then
              (LaunchOutcome.failed Stage.startFailed, teardown e backup s3)
            else
              let s4 := { s3 with realData := some e.postGameContent }
              if ¬e.swapOutOk then
                (LaunchOutcome.failed Stage.swapOutFailed, teardown e backup s4)
              else (LaunchOutcome.completed, teardown e backup s4)
    | _ => (LaunchOutcome.failed Stage.lockFailed, s0)

/-- Environment for `launcher.setupInstanceEnvironment` (older sandbox
launcher): outcomes of `os.MkdirTemp`, `os.MkdirAll` of the save subpath,
and `copyFromMaster`. -/
structure SetupEnv where
  mkTempOk : Bool
  mkdirOk : Bool
  copyOk : Bool

/-- `launcher.setupInstanceEnvironment`: create the instance root, the
virtual AppData structure and the save subpath, then populate it from the
chosen source; on a failure after the root was created, the root is removed
with `os.RemoveAll` before the error returns. Returns (success flag as
`Option Unit`, whether the instance root still exists afterwards). -/
def setupInstanceEnvironment (se : SetupEnv) : Option Unit × Bool :=
  if ¬se.mkTempOk then (none, false)
  else if ¬se.mkdirOk then (none, false)
  else if ¬se.copyOk then (none, false)
  else (some (), true)

/-- The classification loop of `backup.StartBackgroundSync`: positive
interval ⇒ periodic, zero ⇒ watcher, negative ⇒ neither. -/
def partitionBackupTargets (ts : List SyncTarget) :
    List SyncTarget × List SyncTarget :=
  ts.foldl
    (fun acc t =>
      if 0 < t.interval then (acc.1 ++ [t], acc.2)
      else if t.interval = 0 then (acc.1, acc.2 ++ [t])
      else acc)
    ([], [])

/-- `backup.StartBackgroundSync`: with at most one configured target, return
immediately (no background work); otherwise classify the targets after the
first into periodic-timer targets and watcher targets. The result is the
pair (periodic targets, watcher targets) handed to `startPeriodicBackups`
and `startWatcherBackups`. -/
def StartBackgroundSync (targets : List SyncTarget) :
    List SyncTarget × List SyncTarget :=
  if targets.length ≤ 1 then ([], [])
  else partitionBackupTargets (targets.drop 1)

theorem partitionBackupTargets_loop (ts : List SyncTarget) :
    ∀ p w, ts.foldl
        (fun acc t =>
          if 0 < t.interval then (acc.1 ++ [t], acc.2)
          else if t.interval = 0 then (acc.1, acc.2 ++ [t])
          else acc)
        (p, w)
      = (p ++ ts.filter (fun t => decide (0 < t.interval)),
         w ++ ts.filter (fun t => decide (t.interval = 0))) := by
  induction ts with
  | nil => intro p w; simp
  | cons t ts ih =>
    intro p w
    by_cases h1 : 0 < t.interval
    · have h2 : ¬t.interval = 0 := by omega
      simp only [List.foldl_cons, if_pos h1, List.filter_cons]
      rw [ih]
      simp [h1, h2]
    · by_cases h2 : t.interval = 0
      · simp only [List.foldl_cons, if_neg h1, if_pos h2, List.filter_cons]
        rw [ih]
        simp [h1, h2]
      · simp only [List.foldl_cons, if_neg h1, if_neg h2, List.filter_cons]
        rw [ih]
        simp [h1, h2]

theorem partitionBackupTargets_eq_filters (ts : List SyncTarget) :
    partitionBackupTargets ts
      = (ts.filter (fun t => decide (0 < t.interval)),
         ts.filter (fun t => decide (t.interval = 0))) := by
  have := partitionBackupTargets_loop ts [] []
  simpa [partitionBackupTargets] using this

theorem startBackgroundSync_eq_filters (ts : List SyncTarget) :
    StartBackgroundSync ts
      = ((ts.drop 1).filter (fun t => decide (0 < t.interval)),
         (ts.drop 1).filter (fun t => decide (t.interval = 0))) := by
  unfold StartBackgroundSync
  by_cases h : ts.length ≤ 1
  · have hd : ts.drop 1 = [] := by
      cases ts with
      | nil => rfl
      | cons a ts =>
        cases ts with
        | nil => rfl
        | cons b ts => simp at h
    rw [if_pos h, hd]
    rfl
  · rw [if_neg h, partitionBackupTargets_eq_filters]

/-- The debounce duration of `startWatcherBackups` (2 seconds), in
nanoseconds of model time. -/
def debounceDuration : Nat := 2000000000

/-- Debounce semantics of `startWatcherBackups` over a strictly increasing
list of write-event times: each write stops a still-pending timer (one that
would fire strictly later than the write) and schedules a fresh timer `D`
after itself; the result is the list of times at which the debounce timer
actually fires and runs the backup pass. -/
def fires (D : Nat) : List Nat → List Nat
  | [] => []
  | [t] => [t + D]
  | t1 :: t2 :: rest =>
    if t2 < t1 + D then fires D (t2 :: rest)
    else (t1 + D) :: fires D (t2 :: rest)

/-- Each timer firing runs one synchronization pass over the watcher targets
sequentially, in order: the schedule pairs every firing time with the target
list iterated by the `time.AfterFunc` callback. -/
def watcherSchedule (D : Nat) (writes : List Nat) (targets : List SyncTarget) :
    List (Nat × List SyncTarget) :=
  (fires D writes).map (fun f => (f, targets))

theorem fires_burst (D : Nat) :
    ∀ ts : List Nat, ts ≠ [] →
      List.Chain' (fun a b => a < b ∧ b < a + D) ts →
      ∃ l, ts.getLast? = some l ∧ fires D ts = [l + D] := by
  intro ts
  induction ts with
  | nil => intro h; exact absurd rfl h
  | cons t1 rest ih =>
    intro _ hchain
    cases rest with
    | nil => exact ⟨t1, rfl, rfl⟩
    | cons t2 rest2 =>
      have hc := List.chain'_cons.mp hchain
      obtain ⟨l, hl, hf⟩ := ih (by simp) hc.2
      refine ⟨l, ?_, ?_⟩
      · rw [List.getLast?_cons_cons]
        exact hl
      · show (if t2 < t1 + D then fires D (t2 :: rest2)
              else (t1 + D) :: fires D (t2 :: rest2)) = [l + D]
        rw [if_pos hc.1.2]
        exact hf

/-- Raw character strings (Go `string`) are embedded as `List Char`. -/
abbrev Raw := List Char

/-- Split at every occurrence of `c` (Go `strings.Split` with a one-character
separator). -/
def splitOnCharAux (c : Char) : Raw → Raw → List Raw
  | [], acc => [acc.reverse]
  | x :: xs, acc =>
    if x = c then acc.reverse :: splitOnCharAux c xs []
    else splitOnCharAux c xs (x :: acc)

/-- Go `strings.Split(s, c)` for a single-character separator. -/
def splitOnChar (c : Char) (s : Raw) : List Raw := splitOnCharAux c s []

/-- Split at the first occurrence of `c` (Go `strings.SplitN(s, c, 2)`):
`none` when `c` does not occur. -/
def splitFirst (c : Char) : Raw → Option (Raw × Raw)
  | [] => none
  | x :: xs =>
    if x = c then some ([], xs)
    else (splitFirst c xs).map (fun p => (x :: p.1, p.2))

/-- Go `strconv.ParseBool`: accepts `1 t T TRUE true True 0 f F FALSE false
False`, anything else is an error. -/
def parseBool (s : Raw) : Option Bool :=
  if s = ['1'] ∨ s = ['t'] ∨ s = ['T'] ∨ s = ['T','R','U','E']
      ∨ s = ['t','r','u','e'] ∨ s = ['T','r','u','e'] then some true
  else if s = ['0'] ∨ s = ['f'] ∨ s = ['F'] ∨ s = ['F','A','L','S','E']
      ∨ s = ['f','a','l','s','e'] ∨ s = ['F','a','l','s','e'] then some false
  else none

/-- Accumulate decimal digits; `none` on any non-digit. -/
def digitsToNatAux : Raw → Nat → Option Nat
  | [], acc => some acc
  | c :: cs, acc =>
    if '0' ≤ c ∧ c ≤ '9' then
      digitsToNatAux cs (acc * 10 + (c.toNat - '0'.toNat))
    else none

/-- Go `strconv.Atoi` (overflow aside): optional sign then decimal digits. -/
def atoi (s : Raw) : Option Int :=
  match s with
  | [] => none
  | c :: cs =>
    if c = '-' then
      match cs with
      | [] => none
      | _ => (digitsToNatAux cs 0).map (fun n => -(n : Int))
    else if c = '+' then
      match cs with
      | [] => none
      | _ => (digitsToNatAux cs 0).map (fun n => (n : Int))
    else (digitsToNatAux s 0).map (fun n => (n : Int))

/-- One second in Go `time.Duration` nanoseconds. -/
def secondNs : Int := 1000000000

/-- `config.parseTargetString` (current version): split the raw spec on `|`;
the path part is remote iff it splits on a first `:` into a nonempty name
with no backslash and length > 1 (excluding Windows drive letters); an
explicit nonempty second part parses as the interval in seconds (parse
errors leave the zero interval); an explicit nonempty third part parses as
the sync-on-quit flag (parse errors leave it unset). -/
def parseTargetString (raw : Raw) : SyncTarget :=
  let parts := splitOnChar '|' raw
  let pathPart := parts.headD []
  let base : SyncTarget :=
    match splitFirst ':' pathPart with
    | some (name, rest) =>
      if name ≠ [] ∧ ¬name.contains '\\' ∧ 1 < name.length then
        { type := SyncType.Gdrive, path := rest, remoteName := name,
          interval := 0, syncOnQuit := none, original := raw }
      else
        { type := SyncType.Local, path := pathPart, remoteName := [],
          interval := 0, syncOnQuit := none, original := raw }
    | none =>
      { type := SyncType.Local, path := pathPart, remoteName := [],
        interval := 0, syncOnQuit := none, original := raw }
  let withInterval : SyncTarget :=
    match parts.get? 1 with
    | some p =>
      if p ≠ [] then
        match atoi p with
        | some n => { base with interval := n * secondNs }
        | none => base
      else base
    | none => base
  match parts.get? 2 with
  | some p =>
    if p ≠ [] then
      match parseBool p with
      | some b => { withInterval with syncOnQuit := some b }
      | none => withInterval
    else withInterval
  | none => withInterval

/-- The target loop of `config.Load` (current version): parse every `-target`
spec in order; the first target's sync-on-quit flag is then set to `true`
(the code overwrites whatever was parsed). -/
def loadTargets (raws : List Raw) : List SyncTarget :=
  match raws.map parseTargetString with
  | [] => []
  | t :: rest => { t with syncOnQuit := some true } :: rest

/-- The per-target decision of `copySavesBack` (and of the sync-back loop in
`runOnlineOnlyMode`): sync on quit iff the target's tri-state flag says so,
falling back to the global `-sync-on-quit` flag when unset. -/
def doSync (globalSync : Bool) (t : SyncTarget) : Bool :=
  t.syncOnQuit.getD globalSync

/-- `launcher.copySavesBack`: after the game exits, synchronize back exactly
the targets whose decision is positive, in registry order. -/
def copySavesBack (globalSync : Bool) (ts : List SyncTarget) : List SyncTarget :=
  ts.filter (doSync globalSync)

/-! Concrete endpoint values used by witnesses and counterexamples. -/

/-- A local endpoint (first/primary target in the witnesses). -/
def epPrimary : SyncTarget :=
  { type := SyncType.Local, path := ['p'], remoteName := [], interval := -1,
    syncOnQuit := some true, original := ['p'] }

/-- A local endpoint whose directory does not exist on disk. -/
def epLocalMissing : SyncTarget :=
  { type := SyncType.Local, path := ['s'], remoteName := [], interval := 0,
    syncOnQuit := none, original := ['s'] }

/-- A remote (Gdrive) endpoint. -/
def epCloud : SyncTarget :=
  { type := SyncType.Gdrive, path := ['s'], remoteName := ['g', 'd'],
    interval := 0, syncOnQuit := none, original := ['g', 'd', ':', 's'] }

/-- A local event-driven (interval 0) backup endpoint. -/
def epWatch : SyncTarget :=
  { type := SyncType.Local, path := ['w'], remoteName := [], interval := 0,
    syncOnQuit := none, original := ['w'] }

/-- A local periodic (positive interval) backup endpoint. -/
def epPeriodic : SyncTarget :=
  { type := SyncType.Local, path := ['q'], remoteName := [], interval := 30 * secondNs,
    syncOnQuit := none, original := ['q'] }

/-- Claim C2: for every set of endpoints whose latest modification time was
successfully obtained, `findLatestSource` returns the endpoint with the
strictly greatest modification time; when two or more endpoints share the
greatest time, the first-seen endpoint in registry order is returned. The
returned target heads some success pair `(t, m)` with `m` maximal over all
successes, and the first success whose time reaches `m` is exactly that
pair, which settles both the strict-maximum case and the tie-break. -/
theorem c2_freshness_picks_first_max (rs : List (SyncTarget × Option Nat))
    (h : successes rs ≠ []) :
    ∃ t m, findLatestSource rs = some t
      ∧ (t, m) ∈ successes rs
      ∧ (∀ p ∈ successes rs, p.2 ≤ m)
      ∧ (successes rs).find? (fun p => decide (m ≤ p.2)) = some (t, m) := by
  cases hf : firstMax (successes rs) with
  | none => exact absurd ((firstMax_eq_none_iff _).mp hf) h
  | some x =>
    obtain ⟨hmem, hmax, hfind⟩ := firstMax_spec _ x hf
    refine ⟨x.1, x.2, ?_, ?_, hmax, ?_⟩
    · rw [findLatestSource_eq_firstMax, hf]
      rfl
    · simpa using hmem
    · simpa using hfind

/-- Witness for C2 at a concrete registry: three endpoints, the middle one
unreachable, the third strictly newest. -/
theorem c2_witness :
    successes [(epPrimary, some 5), (epLocalMissing, none), (epCloud, some 9)] ≠ []
    ∧ ∃ t m,
        findLatestSource [(epPrimary, some 5), (epLocalMissing, none), (epCloud, some 9)] = some t
        ∧ (t, m) ∈ successes [(epPrimary, some 5), (epLocalMissing, none), (epCloud, some 9)]
        ∧ (∀ p ∈ successes [(epPrimary, some 5), (epLocalMissing, none), (epCloud, some 9)], p.2 ≤ m)
        ∧ (successes [(epPrimary, some 5), (epLocalMissing, none), (epCloud, some 9)]).find?
            (fun p => decide (m ≤ p.2)) = some (t, m) :=
  ⟨by decide, c2_freshness_picks_first_max _ (by decide)⟩

/-- Claim C3: lock acquisition fails with LockContention iff the existing
lock file names a still-live process; a lock naming a dead process is
reclaimed — the stale file is replaced by one naming the current process —
and acquisition succeeds (assuming the reclaim's own remove/write calls
succeed, which the claim presupposes). -/
theorem c3_lock_contention_iff_live (e : LockEnv)
    (hrm : e.removeOk = true) (hwr : e.writeOk = true) :
    ((acquireLock e).1 = LockResult.contention
      ↔ ∃ p, e.lockFile = some (some p) ∧ e.alive p = true)
    ∧ (∀ p, e.lockFile = some (some p) → e.alive p = false →
        (acquireLock e).1 = LockResult.acquired
          ∧ (acquireLock e).2 = some (some e.myPid)) := by
  obtain ⟨lf, al, mp, rm, wr⟩ := e
  replace hrm : rm = true := hrm
  replace hwr : wr = true := hwr
  subst hrm
  subst hwr
  rcases lf with _ | (_ | pid)
  · constructor
    · simp [acquireLock]
    · intro p hp
      exact Option.noConfusion hp
  · constructor
    · constructor
      · intro hc
        simp [acquireLock] at hc
      · rintro ⟨p, hp, _⟩
        injection hp with h1
        exact Option.noConfusion h1
    · intro p hp
      injection hp with h1
      exact Option.noConfusion h1
  · rcases hal : al pid with _ | _
    · constructor
      · constructor
        · intro hc
          simp [acquireLock, hal] at hc
        · rintro ⟨p, hp, hap⟩
          injection hp with h1
          injection h1 with h2
          subst h2
          replace hap : al pid = true := hap
          rw [hal] at hap
          exact Bool.noConfusion hap
      · intro p hp hdead
        injection hp with h1
        injection h1 with h2
        subst h2
        constructor <;> simp [acquireLock, hal]
    · constructor
      · constructor
        · intro _
          exact ⟨pid, rfl, hal⟩
        · intro _
          simp [acquireLock, hal]
      · intro p hp hdead
        injection hp with h1
        injection h1 with h2
        subst h2
        replace hdead : al pid = false := hdead
        rw [hal] at hdead
        exact Bool.noConfusion hdead

/-- A lock environment with an existing lock naming dead process 7. -/
def lockEnvStale : LockEnv :=
  { lockFile := some (some 7), alive := fun _ => false, myPid := 42,
    removeOk := true, writeOk := true }

/-- Witness for C3: a stale lock naming dead PID 7 is reclaimed by PID 42. -/
theorem c3_witness :
    (((acquireLock lockEnvStale).1 = LockResult.contention
        ↔ ∃ p, lockEnvStale.lockFile = some (some p) ∧ lockEnvStale.alive p = true)
      ∧ (∀ p, lockEnvStale.lockFile = some (some p) → lockEnvStale.alive p = false →
          (acquireLock lockEnvStale).1 = LockResult.acquired
            ∧ (acquireLock lockEnvStale).2 = some (some lockEnvStale.myPid))) :=
  c3_lock_contention_iff_live lockEnvStale rfl rfl

/-- Claim C4: local-to-local synchronization is a destructive mirror and
idempotent: for every source tree and every pre-existing destination state,
one run leaves the destination exactly equal to the source, any
destination-only file is absent afterwards, and a second run with an
unchanged source yields a byte-identical destination. -/
theorem c4_local_mirror_idempotent (src : FS) (dst : Option FS) :
    (SyncOp SyncType.Local SyncType.Local src dst).2 = src
    ∧ (∀ p, fsLookup src p = none →
        fsLookup (SyncOp SyncType.Local SyncType.Local src dst).2 p = none)
    ∧ (SyncOp SyncType.Local SyncType.Local src
        (some (SyncOp SyncType.Local SyncType.Local src dst).2)).2
      = (SyncOp SyncType.Local SyncType.Local src dst).2 := by
  have h : ∀ d : Option FS, (SyncOp SyncType.Local SyncType.Local src d).2 = src := by
    intro d
    cases d <;> rfl
  refine ⟨h dst, ?_, ?_⟩
  · intro p hp
    rw [h dst]
    exact hp
  · rw [h, h]

/-- Witness for C4: a destination-only file is gone after the mirror run. -/
theorem c4_witness :
    fsLookup (SyncOp SyncType.Local SyncType.Local [(["a"], 1)]
      (some [(["b"], 2)])).2 ["b"] = none :=
  (c4_local_mirror_idempotent [(["a"], 1)] (some [(["b"], 2)])).2.1 ["b"] (by decide)

/-- Claim C5 counterexample: not every remote-involving synchronization has
copy-only semantics. The pre-launch step of `runOnlineOnlyMode` invokes
rclone `sync` (a mirror) from the newest cloud target onto the local save
path whenever the cloud is strictly newer: at this concrete input the local
destination's own file `extra` is present before and absent afterwards,
refuting the claim as stated. -/
theorem c5_counterexample :
    (onlineOnlyPreLaunch 10 [(epCloud, some 20)]
      [(["s1"], 5)] [(["s1"], 1), (["extra"], 9)]).1 = some Verb.sync
    ∧ fsLookup [(["s1"], 1), (["extra"], 9)] ["extra"] = some 9
    ∧ fsLookup (onlineOnlyPreLaunch 10 [(epCloud, some 20)]
        [(["s1"], 5)] [(["s1"], 1), (["extra"], 9)]).2 ["extra"] = none := by
  decide

/-- Claim C5 as amended: every synchronization through `backup.Sync` in which
either endpoint is remote invokes rclone `copy` and never removes
destination-only files (which stay unchanged); the single exception is the
online-only mode's pre-launch download, which mirrors the newest cloud
target over the local save path with rclone `sync`. -/
theorem c5_amended_remote_copy_only (st dt : SyncType) (srcFS : FS) (dstFS : Option FS)
    (h : st = SyncType.Gdrive ∨ dt = SyncType.Gdrive) :
    (SyncOp st dt srcFS dstFS).1 = some Verb.copy
    ∧ ∀ p, fsLookup srcFS p = none →
        fsLookup (SyncOp st dt srcFS dstFS).2 p = fsLookup (dstFS.getD []) p := by
  have hne : ¬(st = SyncType.Local ∧ dt = SyncType.Local) := by
    intro hc
    rcases h with h | h
    · rw [h] at hc
      exact SyncType.noConfusion hc.1
    · rw [h] at hc
      exact SyncType.noConfusion hc.2
  constructor
  · simp [SyncOp, hne]
  · intro p hp
    simp only [SyncOp, if_neg hne]
    exact fsLookup_mergeInto_of_src_none _ _ _ hp

/-- Witness for the amended C5: a remote-to-local copy leaves the
destination-only file `extra` untouched. -/
theorem c5_amended_witness :
    (SyncOp SyncType.Gdrive SyncType.Local [(["s"], 5)] (some [(["extra"], 9)])).1
      = some Verb.copy
    ∧ fsLookup (SyncOp SyncType.Gdrive SyncType.Local [(["s"], 5)]
        (some [(["extra"], 9)])).2 ["extra"] = fsLookup [(["extra"], 9)] ["extra"] :=
  ⟨(c5_amended_remote_copy_only SyncType.Gdrive SyncType.Local [(["s"], 5)]
      (some [(["extra"], 9)]) (Or.inl rfl)).1,
   (c5_amended_remote_copy_only SyncType.Gdrive SyncType.Local [(["s"], 5)]
      (some [(["extra"], 9)]) (Or.inl rfl)).2 ["extra"] (by decide)⟩

/-- Claim C6 counterexample: a nonexistent endpoint is not skipped. The walk
over a missing local directory deliberately reports the zero time with no
error (`util.GetDirLastModTime`), so a single nonexistent local endpoint is
treated as reachable and is returned by `findLatestSource` instead of the
resolution failing with NoReachableSource, refuting the claim as stated. -/
theorem c6_counterexample :
    GetDirLastModTime DirQueryResult.missing = some 0
    ∧ findLatestSource [(epLocalMissing, GetDirLastModTime DirQueryResult.missing)]
        = some epLocalMissing := by
  decide

/-- Claim C6 as amended: every endpoint whose modification-time query returns
an error is skipped (with a warning) without affecting the result; a
nonexistent endpoint's query succeeds with the zero time, so it counts as
reachable; resolution fails with NoReachableSource exactly when every
endpoint's query returned an error, and whenever at least one query
succeeds, some endpoint is returned. -/
theorem c6_amended_skip_errors_fail_iff_none (rs : List (SyncTarget × Option Nat)) :
    (findLatestSource rs = none ↔ successes rs = [])
    ∧ findLatestSource rs = findLatestSource (rs.filter (fun p => p.2.isSome)) := by
  constructor
  · rw [findLatestSource_eq_firstMax]
    constructor
    · intro h
      cases hf : firstMax (successes rs) with
      | none => exact (firstMax_eq_none_iff _).mp hf
      | some x => rw [hf] at h; cases h
    · intro h
      rw [h]
      rfl
  · rw [findLatestSource_eq_firstMax, findLatestSource_eq_firstMax,
      successes_filter_isSome]

/-- Claim C10: the background sync scheduler never synchronizes to the first
configured endpoint — with at most one target it starts no background work
(both lists empty, since `drop 1` of such a registry is empty and the code
returns early), and otherwise the periodic timers are created exactly for
the targets after the first with positive interval while the watcher pass
covers exactly the targets after the first with zero interval; a negative
interval lands in neither list. -/
theorem c10_scheduler_excludes_primary (ts : List SyncTarget) :
    (StartBackgroundSync ts).1 = (ts.drop 1).filter (fun t => decide (0 < t.interval))
    ∧ (StartBackgroundSync ts).2 = (ts.drop 1).filter (fun t => decide (t.interval = 0)) := by
  rw [startBackgroundSync_eq_filters]
  exact ⟨rfl, rfl⟩

/-- Claim C7: for every burst of N ≥ 1 write events on the watched working
directory whose consecutive writes are separated by less than the debounce
duration, exactly one synchronization pass is triggered, beginning at the
debounce delay after the last write of the burst, and that single pass
iterates sequentially over the scheduler's event-driven (watcher) endpoints
in registry order — the targets after the first whose interval is zero. -/
theorem c7_debounce_single_pass (cfgTargets : List SyncTarget) (writes : List Nat)
    (hne : writes ≠ [])
    (hburst : List.Chain' (fun a b => a < b ∧ b < a + debounceDuration) writes) :
    ∃ l, writes.getLast? = some l
      ∧ watcherSchedule debounceDuration writes (StartBackgroundSync cfgTargets).2
        = [(l + debounceDuration,
            (cfgTargets.drop 1).filter (fun t => decide (t.interval = 0)))] := by
  obtain ⟨l, hl, hf⟩ := fires_burst debounceDuration writes hne hburst
  refine ⟨l, hl, ?_⟩
  have h2 : (StartBackgroundSync cfgTargets).2
      = (cfgTargets.drop 1).filter (fun t => decide (t.interval = 0)) := by
    rw [startBackgroundSync_eq_filters]
  rw [watcherSchedule, hf, h2]
  rfl

/-- Witness for C7: two writes 1ns apart, a registry of a primary target and
one watcher target. -/
theorem c7_witness :
    ([0, 1] : List Nat) ≠ []
    ∧ List.Chain' (fun a b => a < b ∧ b < a + debounceDuration) [0, 1]
    ∧ ∃ l, ([0, 1] : List Nat).getLast? = some l
        ∧ watcherSchedule debounceDuration [0, 1]
            (StartBackgroundSync [epPrimary, epWatch]).2
          = [(l + debounceDuration,
              ([epPrimary, epWatch].drop 1).filter (fun t => decide (t.interval = 0)))] := by
  have hch : List.Chain' (fun a b => a < b ∧ b < a + debounceDuration) [0, 1] := by
    rw [List.chain'_cons]
    exact ⟨⟨by decide, by decide⟩, by simp⟩
  exact ⟨by decide, hch,
    c7_debounce_single_pass [epPrimary, epWatch] [0, 1] (by decide) hch⟩

/-- The raw target spec `A|0|false`: explicit sync-on-quit `false`. -/
def rawExplicitFalse : Raw := ['A', '|', '0', '|', 'f', 'a', 'l', 's', 'e']

/-- The raw target spec `B`: no explicit interval or sync-on-quit flag. -/
def rawUnset : Raw := ['B']

/-- Claim C8 counterexample: the first configured endpoint's sync-on-exit
flag is not merely defaulted when unset — `config.Load` overwrites it with
`true` even when the spec explicitly says `false`. With the single spec
`A|0|false` and the global default off, the claim says the endpoint is not
synchronized back, yet the loaded registry carries `some true` and the
sync-back loop of `copySavesBack` includes it. -/
theorem c8_counterexample :
    (parseTargetString rawExplicitFalse).syncOnQuit = some false
    ∧ (loadTargets [rawExplicitFalse]).map (fun t => t.syncOnQuit) = [some true]
    ∧ copySavesBack false (loadTargets [rawExplicitFalse])
        = loadTargets [rawExplicitFalse] := by
  decide

/-- Claim C8 as amended: each endpoint carries a tri-state sync-on-exit flag;
after the managed process exits, an endpoint after the first is synchronized
back exactly when its flag is `some true`, or when its flag is unset and the
global sync-on-exit default is on; the first configured endpoint's flag is
overwritten to `true` at load time — even an explicit `false` — so the first
endpoint is always synchronized back. -/
theorem c8_amended_tristate (raws : List Raw) (g : Bool) :
    (∀ t ∈ (loadTargets raws).drop 1,
      (doSync g t = true
        ↔ (t.syncOnQuit = some true ∨ (t.syncOnQuit = none ∧ g = true))))
    ∧ (∀ t, (loadTargets raws).head? = some t →
        t.syncOnQuit = some true ∧ doSync g t = true)
    ∧ copySavesBack g (loadTargets raws) = (loadTargets raws).filter (doSync g) := by
  refine ⟨?_, ?_, rfl⟩
  · intro t _
    rcases hq : t.syncOnQuit with _ | b
    · simp [doSync, hq]
    · cases b <;> simp [doSync, hq]
  · intro t ht
    cases raws with
    | nil => cases ht
    | cons r rest =>
      have : t = { parseTargetString r with syncOnQuit := some true } := by
        have hl : loadTargets (r :: rest)
            = { parseTargetString r with syncOnQuit := some true }
              :: rest.map parseTargetString := rfl
        rw [hl] at ht
        exact (Option.some_inj.mp ht).symm
      subst this
      exact ⟨rfl, rfl⟩

/-- Witness for the amended C8: with specs `A|0|false` then `B` and the
global default on, the second (unset) endpoint's decision matches the
tri-state rule. -/
theorem c8_amended_witness :
    parseTargetString rawUnset ∈ (loadTargets [rawExplicitFalse, rawUnset]).drop 1
    ∧ (doSync true (parseTargetString rawUnset) = true
        ↔ ((parseTargetString rawUnset).syncOnQuit = some true
            ∨ ((parseTargetString rawUnset).syncOnQuit = none ∧ true = true))) :=
  ⟨by decide,
   (c8_amended_tristate [rawExplicitFalse, rawUnset] true).1
     (parseTargetString rawUnset) (by decide)⟩

/-- Removing the lock file never touches the save data. -/
theorem releaseLock_realData (e : LaunchEnv) (s : SwapState) :
    (releaseLock e s).realData = s.realData := by
  unfold releaseLock
  split <;> rfl

/-- A pre-session real save tree with two files. -/
def swapStart : SwapState :=
  { realData := some [(["f1"], 1), (["f2"], 2)], backupDir := none,
    lockHeld := false }

/-- A launch environment in which every OS call succeeds; the game process
is forcibly terminated mid-session (`waitKilled`). -/
def launchEnvOk : LaunchEnv :=
  { exeExists := true
    syncTargets := [epPrimary, epWatch]
    lockFile := none
    alive := fun _ => false
    myPid := 42
    lockRemoveOk := true
    lockWriteOk := true
    releaseRemoveOk := true
    mkTempOk := true
    backupCopyOk := true
    backupRemoveOk := true
    removeResidue := [(["f1"], 1)]
    copyResidue := []
    sourceQueries := [(epPrimary, some 3)]
    swapInOk := true
    swapInContent := [(["f3"], 7)]
    swapInResidue := none
    startOk := true
    waitKilled := true
    postGameContent := [(["f3"], 8)]
    swapOutOk := true
    restoreRemoveOk := true
    restoreCopyOk := true }

/-- `launchEnvOk`, except `os.RemoveAll` of the real save location fails
after deleting `f2` (Go's `RemoveAll` removes everything it can and returns
the first error it encountered). -/
def launchEnvRemoveFail : LaunchEnv := { launchEnvOk with backupRemoveOk := false }

/-- `launchEnvOk`, except creating the temporary backup directory fails. -/
def launchEnvMkTempFail : LaunchEnv := { launchEnvOk with mkTempOk := false }

/-- Claim C1: in every transactional-swap run in which the pre-existing real
save data was backed up (the backup's temp-dir creation, copy and removal
all succeeded on the existing data), the real data location again holds its
pre-session content and the lock is released when `LaunchGame` returns, on
every exit path: source resolution failing, swap-in failing, the game
failing to start, normal exit or forced termination mid-session
(`waitKilled` is unconstrained), and swap-out failing. The teardown's own
primitives are assumed to succeed (`restoreRemoveOk`, `restoreCopyOk`,
`releaseRemoveOk`), as the claim's restoration wording presupposes. -/
theorem c1_swap_teardown_restores (e : LaunchEnv) (s0 : SwapState) (d : FS)
    (hexe : e.exeExists = true)
    (hts : e.syncTargets.isEmpty = false)
    (hacq : (acquireLock (lockEnvOf e)).1 = LockResult.acquired)
    (hreal : s0.realData = some d)
    (hmt : e.mkTempOk = true) (hbc : e.backupCopyOk = true)
    (hbr : e.backupRemoveOk = true)
    (hrr : e.restoreRemoveOk = true) (hrc : e.restoreCopyOk = true)
    (hrel : e.releaseRemoveOk = true) :
    (LaunchGame e s0).2.realData = some d
    ∧ (LaunchGame e s0).2.lockHeld = false := by
  have htear : ∀ s : SwapState,
      (teardown e (some d) s).realData = some d
      ∧ (teardown e (some d) s).lockHeld = false := by
    intro s
    simp [teardown, restoreRealSaves, releaseLock, hrr, hrc, hrel]
  have hback : backupRealSaves e { s0 with lockHeld := true }
      = (some (some d),
         { s0 with lockHeld := true, realData := none, backupDir := some d }) := by
    simp [backupRealSaves, hreal, hmt, hbc, hbr]
  rcases hq : findLatestSource e.sourceQueries with _ | src <;>
    rcases hsi : e.swapInOk with _ | _ <;>
      rcases hst : e.startOk with _ | _ <;>
        rcases hso : e.swapOutOk with _ | _ <;>
          · simp only [LaunchGame, hexe, hts, hacq, hback, hq, hsi, hst, hso,
              Bool.not_true, Bool.not_false, not_false_iff, not_true,
              if_true, if_false, Bool.false_eq_true, ite_true, ite_false,
              not_false_eq_true]
            exact htear _

/-- Witness for C1: the all-ok environment with the game killed mid-session;
the pre-session tree `f1,f2` is back and the lock is gone. -/
theorem c1_witness :
    (LaunchGame launchEnvOk swapStart).2.realData = some [(["f1"], 1), (["f2"], 2)]
    ∧ (LaunchGame launchEnvOk swapStart).2.lockHeld = false :=
  c1_swap_teardown_restores launchEnvOk swapStart [(["f1"], 1), (["f2"], 2)]
    rfl rfl (by decide) rfl rfl rfl rfl rfl rfl rfl

/-- Claim C9 counterexample: a preparation failure that does not revert the
partial mutation. When `os.RemoveAll` of the real save location fails partway
during the backup relocation (here: `f2` already deleted, `f1` left), the
error propagates out of `backupRealSaves` before the restore defer is
registered, so `LaunchGame` returns with the real data location missing
`f2` — not its pre-call content — refuting the claim at this input. -/
theorem c9_counterexample :
    swapStart.realData = some [(["f1"], 1), (["f2"], 2)]
    ∧ (LaunchGame launchEnvRemoveFail swapStart).1
        = LaunchOutcome.failed Stage.backupFailed
    ∧ (LaunchGame launchEnvRemoveFail swapStart).2.realData = some [(["f1"], 1)]
    ∧ ¬(LaunchGame launchEnvRemoveFail swapStart).2.realData = swapStart.realData := by
  decide

/-- Claim C9 as amended: a preparation failure reverts the mutations the
claim names, except when the backup relocation's delete phase itself fails
partway — then the partially deleted real location is left as-is (its
content surviving only in the unreverted temp backup copy). Specifically:
(1) if the backup step fails before touching the real location (temp-dir
creation or copy failure), the real location still holds its pre-call
content; (2) if the backup succeeded and a later preparation step fails
(source resolution or swap-in), the deferred restore puts the pre-call
content back before the error propagates; (3) in the sandbox strategy, any
failure after the instance root was created removes the root before the
error returns. -/
theorem c9_amended_revert (e : LaunchEnv) (s0 : SwapState) (d : FS)
    (hexe : e.exeExists = true)
    (hts : e.syncTargets.isEmpty = false)
    (hacq : (acquireLock (lockEnvOf e)).1 = LockResult.acquired)
    (hreal : s0.realData = some d)
    (hrr : e.restoreRemoveOk = true) (hrc : e.restoreCopyOk = true)
    (hrel : e.releaseRemoveOk = true) :
    ((e.mkTempOk = false ∨ e.backupCopyOk = false) →
      (LaunchGame e s0).1 = LaunchOutcome.failed Stage.backupFailed
      ∧ (LaunchGame e s0).2.realData = some d)
    ∧ (e.mkTempOk = true → e.backupCopyOk = true → e.backupRemoveOk = true →
        (findLatestSource e.sourceQueries = none ∨ e.swapInOk = false) →
        (LaunchGame e s0).2.realData = some d
        ∧ ¬(LaunchGame e s0).1 = LaunchOutcome.completed)
    ∧ (∀ se : SetupEnv, (setupInstanceEnvironment se).1 = none →
        (setupInstanceEnvironment se).2 = false) := by
  refine ⟨?_, ?_, ?_⟩
  · intro hfail
    rcases hmk : e.mkTempOk with _ | _
    · have hback : backupRealSaves e { s0 with lockHeld := true }
          = (none, { s0 with lockHeld := true }) := by
        simp [backupRealSaves, hreal, hmk]
      constructor <;>
        simp only [LaunchGame, hexe, hts, hacq, hback,
          Bool.not_true, Bool.not_false, not_false_iff, not_true,
          if_true, if_false, Bool.false_eq_true, ite_true, ite_false,
          not_false_eq_true] <;>
        first
        | rfl
        | (rw [releaseLock_realData]; exact hreal)
    · have hcp : e.backupCopyOk = false := by
        rcases hfail with h | h
        · rw [hmk] at h
          exact Bool.noConfusion h
        · exact h
      have hback : backupRealSaves e { s0 with lockHeld := true }
          = (none, { s0 with lockHeld := true, backupDir := some e.copyResidue }) := by
        simp [backupRealSaves, hreal, hmk, hcp]
      constructor <;>
        simp only [LaunchGame, hexe, hts, hacq, hback,
          Bool.not_true, Bool.not_false, not_false_iff, not_true,
          if_true, if_false, Bool.false_eq_true, ite_true, ite_false,
          not_false_eq_true] <;>
        first
        | rfl
        | (rw [releaseLock_realData]; exact hreal)
  · intro hmt hbc hbr hprep
    have htear : ∀ s : SwapState,
        (teardown e (some d) s).realData = some d := by
      intro s
      simp [teardown, restoreRealSaves, releaseLock, hrr, hrc, hrel]
    have hback : backupRealSaves e { s0 with lockHeld := true }
        = (some (some d),
           { s0 with lockHeld := true, realData := none, backupDir := some d }) := by
      simp [backupRealSaves, hreal, hmt, hbc, hbr]
    rcases hprep with hq | hsi
    · constructor <;>
        simp only [LaunchGame, hexe, hts, hacq, hback, hq,
          Bool.not_true, Bool.not_false, not_false_iff, not_true,
          if_true, if_false, Bool.false_eq_true, ite_true, ite_false,
          not_false_eq_true] <;>
          first
          | exact htear _
          | simp
    · rcases hq : findLatestSource e.sourceQueries with _ | src <;>
        constructor <;>
          simp only [LaunchGame, hexe, hts, hacq, hback, hq, hsi,
            Bool.not_true, Bool.not_false, not_false_iff, not_true,
            if_true, if_false, Bool.false_eq_true, ite_true, ite_false,
            not_false_eq_true] <;>
            first
            | exact htear _
            | simp
  · intro se hsefail
    rcases se with ⟨mt, md, cp⟩
    cases mt <;> cases md <;> cases cp <;>
      simp [setupInstanceEnvironment] at hsefail ⊢

/-- Witness for the amended C9: temp-dir creation fails, the run aborts at
the backup stage, and the real location still holds `f1,f2`. -/
theorem c9_amended_witness :
    (LaunchGame launchEnvMkTempFail swapStart).1
        = LaunchOutcome.failed Stage.backupFailed
    ∧ (LaunchGame launchEnvMkTempFail swapStart).2.realData
        = some [(["f1"], 1), (["f2"], 2)] :=
  (c9_amended_revert launchEnvMkTempFail swapStart [(["f1"], 1), (["f2"], 2)]
    rfl rfl (by decide) rfl rfl rfl rfl).1 (Or.inl rfl)

end HK
